import Mathlib

/-!
Verification of the WhatsappEvaluator chat parser and aggregator
(src/whatsappevaluator/evaluator.py), shallowly embedded in Lean.

Modelling conventions:
- A physical input line is a Lean String; as in Python readlines, a line
  normally keeps its trailing newline character.
- Python exceptions raised during construction are modelled by the
  ChatError inductive carried in Except.  The constructor names follow
  the taxonomy of the specification; the comment on each names the
  Python exception it models.
- The external emoji classifier emoji.emoji_count is a black box and is
  passed in as a function parameter emojiCount, as the spec directs.
- pandas dt.dayofweek is computed from a rata-die day number
  (day 1 = 0001-01-01, a Monday), Monday = 0.
- pd.Grouper time buckets are encoded injectively as natural numbers:
  freq D is the rata-die number of the calendar date, freq W is the
  rata-die number of the Sunday ending the week (pandas default W-SUN
  right label), freq M is a linear month index.  The induced partitions
  of timestamps are exactly those of pandas.
- pandas groupby emits groups sorted by key; we emit them in first
  encounter order.  The claims below concern the multiset of rows and
  are unaffected by row order.  One row is emitted per non-empty
  (bucket, weekday, speaker) combination present in the data, which is
  the aggregation contract stated by the specification.
- The digit class of the regex patterns is modelled as the ASCII digits
  0 to 9, the digits the chat export format produces.
-/

/-- A calendar timestamp as produced by datetime.strptime (seconds are
always zero for these formats, so they are omitted). -/
structure DateTime where
  year : Nat
  month : Nat
  day : Nat
  hour : Nat
  minute : Nat
deriving DecidableEq, Repr

/-- The time-format option, keys of the patterns and datetimes dicts. -/
inductive TimeFormat
  | EU
  | NA
  | JP
deriving DecidableEq, Repr

/-- The str keys accepted by the patterns dict: membership test
corresponding to Python `time_format not in patterns`. -/
def timeFormatOfString (s : String) : Option TimeFormat :=
  if s = "EU" then some .EU
  else if s = "NA" then some .NA
  else if s = "JP" then some .JP
  else none

/-- Errors surfaced during WhatsappChat construction.  Names follow the
error taxonomy of the specification; comments give the Python exception
each one models. -/
inductive ChatError
  /-- ValueError: chat_file is not a valid file (line 43). -/
  | notAFile
  /-- ValueError: chat_file must be a valid .txt file (line 45). -/
  | invalidExtension
  /-- ValueError: time_format must be a valid format (line 47). -/
  | invalidTimeFormat
  /-- ValueError raised by datetime.strptime on an invalid calendar
  date or time (line 64). -/
  | timestampParseError
  /-- ValueError: not enough values to unpack, when split on the colon
  yields a single piece (line 68). -/
  | noColonError
  /-- IndexError from messages[-1] when no message exists yet
  (line 76). -/
  | continuationError
deriving DecidableEq, Repr

/-- The spec class InvalidInputError / FormatError: errors raised by the
argument validation at lines 42-47, before the file is read. -/
def ChatError.isInvalidInput : ChatError → Bool
  | .notAFile => true
  | .invalidExtension => true
  | .invalidTimeFormat => true
  | _ => false

/-- Regex match of the EU and NA pattern at the start of a line:
two digits, slash, two digits, slash, four digits, comma, space,
two digits, colon, two digits. -/
def stampShapeEU (cs : List Char) : Bool :=
  match cs with
  | d1 :: d2 :: '/' :: m1 :: m2 :: '/' :: y1 :: y2 :: y3 :: y4 ::
      ',' :: ' ' :: h1 :: h2 :: ':' :: n1 :: n2 :: _ =>
    d1.isDigit && d2.isDigit && m1.isDigit && m2.isDigit &&
    y1.isDigit && y2.isDigit && y3.isDigit && y4.isDigit &&
    h1.isDigit && h2.isDigit && n1.isDigit && n2.isDigit
  | _ => false

/-- Regex match of the JP pattern at the start of a line: four digits,
slash, two digits, slash, two digits, comma, space, two digits, colon,
two digits. -/
def stampShapeJP (cs : List Char) : Bool :=
  match cs with
  | y1 :: y2 :: y3 :: y4 :: '/' :: m1 :: m2 :: '/' :: d1 :: d2 ::
      ',' :: ' ' :: h1 :: h2 :: ':' :: n1 :: n2 :: _ =>
    y1.isDigit && y2.isDigit && y3.isDigit && y4.isDigit &&
    m1.isDigit && m2.isDigit && d1.isDigit && d2.isDigit &&
    h1.isDigit && h2.isDigit && n1.isDigit && n2.isDigit
  | _ => false

/-- re.match(patterns[time_format], line): does the stamp pattern of the
given locale match at the start of the line?  All three patterns have
fixed width 17, so the matched group is always the first 17 characters. -/
def stampMatch (fmt : TimeFormat) (line : String) : Bool :=
  match fmt with
  | .EU => stampShapeEU line.data
  | .NA => stampShapeEU line.data
  | .JP => stampShapeJP line.data

/-- Numeric value of a digit character. -/
def digitVal (c : Char) : Nat := c.toNat - 48

/-- Two-digit number. -/
def num2 (a b : Char) : Nat := 10 * digitVal a + digitVal b

/-- Four-digit number. -/
def num4 (a b c d : Char) : Nat :=
  1000 * digitVal a + 100 * digitVal b + 10 * digitVal c + digitVal d

/-- Gregorian leap-year test, as used by the datetime module. -/
def isLeapYear (y : Nat) : Bool :=
  (y % 4 == 0 && y % 100 != 0) || y % 400 == 0

/-- Number of days in a month of a given year. -/
def daysInMonth (y m : Nat) : Nat :=
  if m = 2 then (if isLeapYear y then 29 else 28)
  else if m = 4 ∨ m = 6 ∨ m = 9 ∨ m = 11 then 30
  else 31

/-- Calendar validation performed by datetime.strptime: the datetime
module accepts years 1 to 9999 (four digits cap the upper bound), months
1 to 12, days 1 to the length of the month, hours 0 to 23 and minutes
0 to 59; anything else raises ValueError. -/
def mkDateTime (y mo d h mi : Nat) : Option DateTime :=
  if 1 ≤ y ∧ 1 ≤ mo ∧ mo ≤ 12 ∧ 1 ≤ d ∧ d ≤ daysInMonth y mo ∧
      h ≤ 23 ∧ mi ≤ 59 then
    some ⟨y, mo, d, h, mi⟩
  else
    none

/-- datetime.strptime(matched, datetimes[time_format]) on the 17
characters of the matched group.  The field order differs per locale
(EU day/month/year, NA month/day/year, JP year/month/day); the result is
none when the text does not parse as a valid calendar date and time. -/
def strptime (fmt : TimeFormat) (cs : List Char) : Option DateTime :=
  match fmt, cs with
  | .EU, [d1, d2, '/', m1, m2, '/', y1, y2, y3, y4, ',', ' ', h1, h2, ':', n1, n2] =>
    if d1.isDigit && d2.isDigit && m1.isDigit && m2.isDigit &&
        y1.isDigit && y2.isDigit && y3.isDigit && y4.isDigit &&
        h1.isDigit && h2.isDigit && n1.isDigit && n2.isDigit then
      mkDateTime (num4 y1 y2 y3 y4) (num2 m1 m2) (num2 d1 d2) (num2 h1 h2) (num2 n1 n2)
    else none
  | .NA, [m1, m2, '/', d1, d2, '/', y1, y2, y3, y4, ',', ' ', h1, h2, ':', n1, n2] =>
    if m1.isDigit && m2.isDigit && d1.isDigit && d2.isDigit &&
        y1.isDigit && y2.isDigit && y3.isDigit && y4.isDigit &&
        h1.isDigit && h2.isDigit && n1.isDigit && n2.isDigit then
      mkDateTime (num4 y1 y2 y3 y4) (num2 m1 m2) (num2 d1 d2) (num2 h1 h2) (num2 n1 n2)
    else none
  | .JP, [y1, y2, y3, y4, '/', m1, m2, '/', d1, d2, ',', ' ', h1, h2, ':', n1, n2] =>
    if y1.isDigit && y2.isDigit && y3.isDigit && y4.isDigit &&
        m1.isDigit && m2.isDigit && d1.isDigit && d2.isDigit &&
        h1.isDigit && h2.isDigit && n1.isDigit && n2.isDigit then
      mkDateTime (num4 y1 y2 y3 y4) (num2 m1 m2) (num2 d1 d2) (num2 h1 h2) (num2 n1 n2)
    else none
  | _, _ => none

/-- Split a character list at the first colon, the colon removed: the
list analogue of str.split with separator colon and maxsplit 1, returning
none when there is no colon (so that unpacking into speaker and message
would raise ValueError). -/
def splitColon (cs : List Char) : Option (List Char × List Char) :=
  match cs with
  | [] => none
  | c :: rest =>
    if c = ':' then some ([], rest)
    else (splitColon rest).map (fun p => (c :: p.1, p.2))

/-- One row of the record table: Speaker, Message and Time columns. -/
structure MessageRecord where
  speaker : String
  message : String
  time : DateTime
deriving DecidableEq, Repr

/-- messages[-1] = messages[-1] + line: append the line text to the
message of the last record of the list (identity on the empty list,
which the parser never does). -/
def appendToLast (acc : List MessageRecord) (line : String) : List MessageRecord :=
  match acc with
  | [] => []
  | [r] => [{ r with message := r.message ++ line }]
  | r :: rs => r :: appendToLast rs line

/-- The body of the parsing loop (lines 59-76) for a single line, acting
on the records accumulated so far: on a stamp match, strptime the first
17 characters, split characters 20 onward on the first colon into
speaker and message, and append a new record; on no match, append the
raw line to the last message, failing when no record exists yet. -/
def processLine (fmt : TimeFormat) (acc : List MessageRecord) (line : String) :
    Except ChatError (List MessageRecord) :=
  if stampMatch fmt line then
    match strptime fmt (line.data.take 17) with
    | none => .error .timestampParseError
    | some t =>
      match splitColon (line.data.drop 20) with
      | none => .error .noColonError
      | some (sp, msg) => .ok (acc ++ [⟨String.mk sp, String.mk msg, t⟩])
  else
    match acc with
    | [] => .error .continuationError
    | _ => .ok (appendToLast acc line)

/-- The parsing loop folded over a list of lines. -/
def parseLines (fmt : TimeFormat) : List String → List MessageRecord →
    Except ChatError (List MessageRecord)
  | [], acc => .ok acc
  | l :: ls, acc =>
    match processLine fmt acc l with
    | .error e => .error e
    | .ok acc2 => parseLines fmt ls acc2

/-- The whole parsing phase of WhatsappChat construction: discard the
first line (the encryption notice) and run the loop over the rest. -/
def parseChat (fmt : TimeFormat) (lines : List String) :
    Except ChatError (List MessageRecord) :=
  parseLines fmt (lines.drop 1) []

/-- Rata-die day number of a date: day 1 is 0001-01-01 in the proleptic
Gregorian calendar (the convention of Python datetime.toordinal). -/
def daysBeforeMonth (y m : Nat) : Nat :=
  (match m with
   | 1 => 0 | 2 => 31 | 3 => 59 | 4 => 90 | 5 => 120 | 6 => 151
   | 7 => 181 | 8 => 212 | 9 => 243 | 10 => 273 | 11 => 304 | _ => 334)
  + (if isLeapYear y ∧ 3 ≤ m then 1 else 0)

/-- Rata-die day number of the date part of a timestamp. -/
def rataDie (dt : DateTime) : Nat :=
  365 * (dt.year - 1) + (dt.year - 1) / 4 - (dt.year - 1) / 100 +
    (dt.year - 1) / 400 + daysBeforeMonth dt.year dt.month + dt.day

/-- pandas dt.dayofweek: Monday is 0, Sunday is 6.  Rata-die day 1 was a
Monday. -/
def dayOfWeek (dt : DateTime) : Nat := (rataDie dt + 6) % 7

/-- The replace list mapping dayofweek numbers to weekday names
(lines 83-94). -/
def weekdayName : Nat → String
  | 0 => "Monday"
  | 1 => "Tuesday"
  | 2 => "Wednesday"
  | 3 => "Thursday"
  | 4 => "Friday"
  | 5 => "Saturday"
  | 6 => "Sunday"
  | _ => ""

/-- One row of the enriched chat table self.chat: the parsed columns
plus Weekday, Message Length, Emoji Count and Contains Emoji
(lines 79-99). -/
structure EnrichedRecord where
  speaker : String
  message : String
  time : DateTime
  weekday : String
  messageLength : Nat
  emojiCount : Nat
  containsEmoji : Nat
deriving DecidableEq, Repr

/-- The enrichment of one record (lines 82-99): Weekday from dayofweek,
Message Length as the character length of the message, Emoji Count from
the external classifier, and Contains Emoji by where(count == 0, 1),
which keeps 0 and turns every other count into 1. -/
def enrich (emojiCount : String → Nat) (r : MessageRecord) : EnrichedRecord :=
  { speaker := r.speaker
    message := r.message
    time := r.time
    weekday := weekdayName (dayOfWeek r.time)
    messageLength := r.message.length
    emojiCount := emojiCount r.message
    containsEmoji := if emojiCount r.message = 0 then 0 else 1 }

/-- The three values of the freq argument of pd.Grouper used at
lines 105-107. -/
inductive Freq
  | D
  | W
  | M
deriving DecidableEq, Repr

/-- The time bucket a timestamp falls into, encoded injectively as a
natural number: for D the rata-die number of the calendar date, for W
the rata-die number of the Sunday ending the week (the pandas W-SUN
right bin label), for M a linear month index.  These induce the same
partitions of timestamps as the pandas Grouper labels. -/
def bucket (f : Freq) (dt : DateTime) : Nat :=
  match f with
  | .D => rataDie dt
  | .W => rataDie dt + (6 - dayOfWeek dt)
  | .M => dt.year * 12 + (dt.month - 1)

/-- The groupby key of line 112: time bucket, Weekday, Speaker. -/
def groupKey (f : Freq) (e : EnrichedRecord) : Nat × String × String :=
  (bucket f e.time, e.weekday, e.speaker)

/-- One row of an aggregate table: the flattened columns Time, Weekday,
Speaker, Message_count, Message Length_sum, Contains Emoji_mean
(lines 110-127). -/
structure AggregateRow where
  time : Nat
  weekday : String
  speaker : String
  message_count : Nat
  message_length_sum : Nat
  contains_emoji_mean : Rat
deriving DecidableEq, Repr

/-- The distinct group keys present in the chat, in first-encounter
order (pandas sorts them; the set is the same). -/
def groupKeys (f : Freq) (chat : List EnrichedRecord) : List (Nat × String × String) :=
  (chat.map (groupKey f)).dedup

/-- The records of the group with the given key. -/
def groupOf (f : Freq) (chat : List EnrichedRecord) (k : Nat × String × String) :
    List EnrichedRecord :=
  chat.filter (fun e => decide (groupKey f e = k))

/-- The aggregated row of one group (lines 114-120): count of the
Message column, sum of Message Length, arithmetic mean of the 0/1
Contains Emoji column. -/
def aggRow (f : Freq) (chat : List EnrichedRecord) (k : Nat × String × String) :
    AggregateRow :=
  let grp := groupOf f chat k
  { time := k.1
    weekday := k.2.1
    speaker := k.2.2
    message_count := grp.length
    message_length_sum := (grp.map (fun e => e.messageLength)).sum
    contains_emoji_mean :=
      ((grp.map (fun e => e.containsEmoji)).sum : Rat) / (grp.length : Rat) }

/-- WhatsappChat.__aggregate_by_time: group the enriched chat by
(time bucket, Weekday, Speaker) and aggregate each group, one row per
non-empty group. -/
def aggregateByTime (f : Freq) (chat : List EnrichedRecord) : List AggregateRow :=
  (groupKeys f chat).map (aggRow f chat)

/-- The data computed by a successful WhatsappChat construction: the
enriched chat table and the three aggregate tables. -/
structure ChatTables where
  chat : List EnrichedRecord
  daily_chat : List AggregateRow
  weekly_chat : List AggregateRow
  monthly_chat : List AggregateRow
deriving DecidableEq, Repr

/-- WhatsappChat.__init__ (lines 26-107).  The filesystem facts are
supplied as values: fileExists models chat_file.exists() and suffix
models chat_file.suffix; contents is the list of lines readlines would
return, consumed only after all argument checks pass, which is how the
construction-time checks of lines 42-47 precede any file read. -/
def initWhatsappChat (fileExists : Bool) (suffix : String) (timeFormat : String)
    (emojiCount : String → Nat) (contents : List String) :
    Except ChatError ChatTables :=
  if !fileExists then .error .notAFile
  else if suffix ≠ ".txt" then .error .invalidExtension
  else
    match timeFormatOfString timeFormat with
    | none => .error .invalidTimeFormat
    | some fmt =>
      match parseChat fmt contents with
      | .error e => .error e
      | .ok records =>
        let chat := records.map (enrich emojiCount)
        .ok { chat := chat
              daily_chat := aggregateByTime .D chat
              weekly_chat := aggregateByTime .W chat
              monthly_chat := aggregateByTime .M chat }

/-! ### Helper lemmas -/

theorem foldl_append_init (l : List String) (a b : String) :
    l.foldl (fun r s => r ++ s) (a ++ b) = a ++ l.foldl (fun r s => r ++ s) b := by
  induction l generalizing b with
  | nil => rfl
  | cons c cs ih =>
    simp only [List.foldl]
    rw [String.append_assoc, ih]

theorem strJoin_cons (s : String) (l : List String) :
    String.join (s :: l) = s ++ String.join l := by
  show l.foldl (fun r t => r ++ t) ("" ++ s) = s ++ String.join l
  rw [String.empty_append, String.join]
  have h := foldl_append_init l s ""
  rw [String.append_empty] at h
  exact h

theorem appendToLast_length (acc : List MessageRecord) (line : String) :
    (appendToLast acc line).length = acc.length := by
  induction acc with
  | nil => rfl
  | cons r rs ih =>
    cases rs with
    | nil => rfl
    | cons r2 rs2 => simp [appendToLast, List.length_cons] at ih ⊢; exact ih

theorem appendToLast_append_one (acc : List MessageRecord) (r : MessageRecord)
    (line : String) :
    appendToLast (acc ++ [r]) line =
      acc ++ [{ r with message := r.message ++ line }] := by
  induction acc with
  | nil => rfl
  | cons a as ih =>
    cases as with
    | nil => simp [appendToLast]
    | cons a2 as2 => simp [appendToLast] at ih ⊢; exact ih

theorem parseLines_length (fmt : TimeFormat) (ls : List String) :
    ∀ acc recs : List MessageRecord, parseLines fmt ls acc = .ok recs →
      recs.length = acc.length + ls.countP (fun l => stampMatch fmt l) := by
  induction ls with
  | nil =>
    intro acc recs h
    simp only [parseLines] at h
    cases h
    simp
  | cons l ls ih =>
    intro acc recs h
    simp only [parseLines] at h
    cases hp : processLine fmt acc l with
    | error e => rw [hp] at h; cases h
    | ok acc2 =>
      rw [hp] at h
      have hlen : acc2.length = acc.length + (if stampMatch fmt l then 1 else 0) := by
        unfold processLine at hp
        by_cases hs : stampMatch fmt l
        · rw [if_pos hs] at hp
          cases hst : strptime fmt (l.data.take 17) with
          | none => rw [hst] at hp; cases hp
          | some t =>
            rw [hst] at hp
            cases hsp : splitColon (l.data.drop 20) with
            | none => rw [hsp] at hp; cases hp
            | some p =>
              rw [hsp] at hp
              cases hp
              simp [hs]
        · rw [if_neg hs] at hp
          cases acc with
          | nil => cases hp
          | cons a as =>
            cases hp
            simp [hs, appendToLast_length]
      have hrec := ih acc2 recs h
      rw [List.countP_cons]
      by_cases hs : stampMatch fmt l <;> simp [hs] at hlen ⊢ <;> omega

/-! ### Claim theorems -/

/-- C3: the parser discards the first input line unconditionally, and a
successful parse yields exactly as many records as there are
stamp-matching lines among the remaining lines. -/
theorem c3_record_count (fmt : TimeFormat) (first : String) (rest : List String)
    (recs : List MessageRecord)
    (h : parseChat fmt (first :: rest) = .ok recs) :
    recs.length = rest.countP (fun l => stampMatch fmt l) ∧
    ∀ first2 : String, parseChat fmt (first2 :: rest) = parseChat fmt (first :: rest) := by
  refine ⟨?_, fun first2 => rfl⟩
  have hlen := parseLines_length fmt rest [] recs h
  simpa using hlen

theorem c3_record_count_witness :
    ([⟨"A", " b\n", ⟨2023, 2, 1, 10, 0⟩⟩] : List MessageRecord).length =
      ["01/02/2023, 10:00 - A: b\n"].countP (fun l => stampMatch .EU l) ∧
    parseChat .EU ("x" :: ["01/02/2023, 10:00 - A: b\n"]) =
      parseChat .EU ("h" :: ["01/02/2023, 10:00 - A: b\n"]) := by
  have h := c3_record_count .EU "h" ["01/02/2023, 10:00 - A: b\n"]
    [⟨"A", " b\n", ⟨2023, 2, 1, 10, 0⟩⟩] rfl
  exact ⟨h.1, h.2 "x"⟩

/-- C5: the Contains Emoji flag is the Emoji Count clamped to 0 or 1:
it is 0 exactly when the count is 0 and 1 for every positive count. -/
theorem c5_contains_emoji_clamp (ec : String → Nat) (r : MessageRecord) :
    (enrich ec r).containsEmoji = min (ec r.message) 1 ∧
    ((enrich ec r).containsEmoji = 0 ↔ ec r.message = 0) ∧
    (0 < ec r.message → (enrich ec r).containsEmoji = 1) := by
  simp only [enrich]
  by_cases h : ec r.message = 0 <;> simp [h]
  omega

theorem c5_contains_emoji_clamp_witness :
    (enrich (fun _ => 2) ⟨"A", "m", ⟨2023, 1, 1, 0, 0⟩⟩).containsEmoji = min 2 1 ∧
    (enrich (fun _ => 2) ⟨"A", "m", ⟨2023, 1, 1, 0, 0⟩⟩).containsEmoji = 1 :=
  ⟨(c5_contains_emoji_clamp (fun _ => 2) ⟨"A", "m", ⟨2023, 1, 1, 0, 0⟩⟩).1,
   (c5_contains_emoji_clamp (fun _ => 2) ⟨"A", "m", ⟨2023, 1, 1, 0, 0⟩⟩).2.2 (by decide)⟩

/-- C8: when, after the discarded first line, a non-stamp line appears
before any stamp line has been seen, construction fails with the
continuation error and returns no records. -/
theorem c8_continuation_error (fmt : TimeFormat) (lines pre suf : List String)
    (l : String)
    (hlines : lines.drop 1 = pre ++ l :: suf)
    (hpre : ∀ p ∈ pre, stampMatch fmt p = false)
    (hl : stampMatch fmt l = false) :
    parseChat fmt lines = .error .continuationError := by
  unfold parseChat
  rw [hlines]
  cases pre with
  | nil =>
    simp only [List.nil_append]
    simp [parseLines, processLine, hl]
  | cons p ps =>
    have hp := hpre p (List.mem_cons_self p ps)
    simp [parseLines, processLine, hp]

theorem c8_continuation_error_witness :
    parseChat .EU ["notice\n", "hello\n"] = .error .continuationError :=
  c8_continuation_error .EU ["notice\n", "hello\n"] [] [] "hello\n" rfl
    (by simp) (by decide)

/-- C9: an extension other than .txt or an unsupported time format makes
construction fail with an invalid-input error, and the result does not
depend on the file contents, so the failure happens before any file
content is read. -/
theorem c9_validation_before_read (fileExists : Bool) (suffix timeFormat : String)
    (ec : String → Nat) (c1 c2 : List String)
    (h : suffix ≠ ".txt" ∨ timeFormatOfString timeFormat = none) :
    (∃ e, initWhatsappChat fileExists suffix timeFormat ec c1 = .error e ∧
      e.isInvalidInput = true) ∧
    initWhatsappChat fileExists suffix timeFormat ec c1 =
      initWhatsappChat fileExists suffix timeFormat ec c2 := by
  cases fileExists with
  | false => exact ⟨⟨.notAFile, rfl, rfl⟩, rfl⟩
  | true =>
    by_cases hs : suffix = ".txt"
    · rcases h with h | h
      · exact absurd hs h
      · subst hs
        refine ⟨⟨.invalidTimeFormat, ?_, rfl⟩, ?_⟩ <;>
          simp [initWhatsappChat, h]
    · refine ⟨⟨.invalidExtension, ?_, rfl⟩, ?_⟩ <;>
        simp [initWhatsappChat, hs]

theorem c9_validation_before_read_witness :
    ((∃ e, initWhatsappChat true ".log" "EU" (fun _ => 0) ["a\n"] = .error e ∧
      e.isInvalidInput = true) ∧
    initWhatsappChat true ".log" "EU" (fun _ => 0) ["a\n"] =
      initWhatsappChat true ".log" "EU" (fun _ => 0) ["b\n", "c\n"]) ∧
    ((∃ e, initWhatsappChat true ".txt" "UK" (fun _ => 0) ["a\n"] = .error e ∧
      e.isInvalidInput = true) ∧
    initWhatsappChat true ".txt" "UK" (fun _ => 0) ["a\n"] =
      initWhatsappChat true ".txt" "UK" (fun _ => 0) ["b\n", "c\n"]) :=
  ⟨c9_validation_before_read true ".log" "EU" (fun _ => 0) ["a\n"] ["b\n", "c\n"]
     (Or.inl (by decide)),
   c9_validation_before_read true ".txt" "UK" (fun _ => 0) ["a\n"] ["b\n", "c\n"]
     (Or.inr (by decide))⟩

theorem processLine_cont (fmt : TimeFormat) (acc : List MessageRecord) (line : String)
    (hl : stampMatch fmt line = false) (hne : acc ≠ []) :
    processLine fmt acc line = .ok (appendToLast acc line) := by
  unfold processLine
  rw [if_neg (by simp [hl])]
  cases acc with
  | nil => exact absurd rfl hne
  | cons a as => rfl

theorem parseLines_conts (fmt : TimeFormat) (conts : List String) :
    (∀ c ∈ conts, stampMatch fmt c = false) →
    ∀ (acc : List MessageRecord) (r : MessageRecord),
      parseLines fmt conts (acc ++ [r]) =
        .ok (acc ++ [{ r with message := r.message ++ String.join conts }]) := by
  induction conts with
  | nil =>
    intro _ acc r
    simp only [parseLines, String.join, List.foldl, String.append_empty]
  | cons c cs ih =>
    intro h acc r
    have hc := h c (List.mem_cons_self c cs)
    have hcs : ∀ x ∈ cs, stampMatch fmt x = false :=
      fun x hx => h x (List.mem_cons_of_mem c hx)
    have hstep := processLine_cont fmt (acc ++ [r]) c hc (by simp)
    simp only [parseLines, hstep, appendToLast_append_one]
    rw [ih hcs acc { r with message := r.message ++ c }]
    rw [strJoin_cons, ← String.append_assoc]

theorem parseLines_error_of_mem (fmt : TimeFormat) (ls : List String) (bad : String)
    (hbad : ∀ acc, ∃ e, processLine fmt acc bad = .error e) :
    bad ∈ ls → ∀ acc, ∃ e, parseLines fmt ls acc = .error e := by
  induction ls with
  | nil => intro h; simp at h
  | cons l ls ih =>
    intro hmem acc
    by_cases hl : l = bad
    · subst hl
      obtain ⟨e, he⟩ := hbad acc
      exact ⟨e, by simp [parseLines, he]⟩
    · have hmem2 : bad ∈ ls := (List.mem_cons.mp hmem).resolve_left
        (fun hb => hl hb.symm)
      cases hp : processLine fmt acc l with
      | error e => exact ⟨e, by simp [parseLines, hp]⟩
      | ok acc2 =>
        obtain ⟨e, he⟩ := ih hmem2 acc2
        exact ⟨e, by simp [parseLines, hp, he]⟩

theorem parseLines_append_ok (fmt : TimeFormat) (xs : List String) :
    ∀ {ys : List String} {acc a : List MessageRecord},
      parseLines fmt xs acc = .ok a →
      parseLines fmt (xs ++ ys) acc = parseLines fmt ys a := by
  induction xs with
  | nil =>
    intro ys acc a h
    simp only [parseLines] at h
    cases h
    simp
  | cons x xs ih =>
    intro ys acc a h
    simp only [parseLines] at h
    cases hp : processLine fmt acc x with
    | error e => rw [hp] at h; cases h
    | ok acc2 =>
      rw [hp] at h
      simp only [List.cons_append, parseLines, hp]
      exact ih h

theorem processLine_badStamp (fmt : TimeFormat) (bad : String)
    (h1 : stampMatch fmt bad = true)
    (h2 : strptime fmt (bad.data.take 17) = none) :
    ∀ acc, processLine fmt acc bad = .error .timestampParseError := by
  intro acc
  unfold processLine
  rw [if_pos h1, h2]

/-- C2: a message spread over one stamp line and N-1 continuation lines
yields exactly one new MessageRecord, whose message is the body produced
by the colon split of the stamp line followed by every continuation line
appended verbatim, trailing newlines included. -/
theorem c2_continuation_folding (fmt : TimeFormat) (stamp : String)
    (conts : List String) (acc : List MessageRecord) (r : MessageRecord)
    (hstamp : processLine fmt acc stamp = .ok (acc ++ [r]))
    (hconts : ∀ c ∈ conts, stampMatch fmt c = false) :
    parseLines fmt (stamp :: conts) acc =
      .ok (acc ++ [{ r with message := r.message ++ String.join conts }]) := by
  simp only [parseLines, hstamp]
  exact parseLines_conts fmt conts hconts acc r

theorem c2_continuation_folding_witness :
    parseLines .EU ["01/02/2023, 10:00 - A: x\n", "y\n", "z\n"] [] =
      .ok ([] ++ [{ speaker := "A", message := " x\n" ++ String.join ["y\n", "z\n"],
                    time := ⟨2023, 2, 1, 10, 0⟩ : MessageRecord }]) :=
  c2_continuation_folding .EU "01/02/2023, 10:00 - A: x\n" ["y\n", "z\n"] []
    ⟨"A", " x\n", ⟨2023, 2, 1, 10, 0⟩⟩ rfl (by decide)

/-- C7 (amended): a stamp-shaped line whose matched text is not a valid
calendar date or time makes the line fail with the timestamp parse error
whenever it is processed; an input containing such a line after the
first always fails with some error and produces no records, and when all
lines before it parse without error the error is the timestamp parse
error. -/
theorem c7_invalid_stamp_fails (fmt : TimeFormat) (bad : String)
    (h1 : stampMatch fmt bad = true)
    (h2 : strptime fmt (bad.data.take 17) = none) :
    (∀ acc, processLine fmt acc bad = .error .timestampParseError) ∧
    (∀ lines, bad ∈ lines.drop 1 → ∃ e, parseChat fmt lines = .error e) ∧
    (∀ (first : String) (pre suf : List String) (recs : List MessageRecord),
      parseLines fmt pre [] = .ok recs →
      parseChat fmt (first :: pre ++ bad :: suf) = .error .timestampParseError) := by
  have hbad := processLine_badStamp fmt bad h1 h2
  refine ⟨hbad, ?_, ?_⟩
  · intro lines hmem
    exact parseLines_error_of_mem fmt (lines.drop 1) bad
      (fun acc => ⟨.timestampParseError, hbad acc⟩) hmem []
  · intro first pre suf recs hpre
    show parseLines fmt (pre ++ bad :: suf) [] = .error .timestampParseError
    rw [parseLines_append_ok fmt pre hpre]
    simp [parseLines, hbad recs]

theorem c7_invalid_stamp_fails_witness :
    parseChat .EU ("h\n" :: [] ++ "99/99/2023, 10:00 - A: b\n" :: []) =
      .error .timestampParseError :=
  (c7_invalid_stamp_fails .EU "99/99/2023, 10:00 - A: b\n" rfl rfl).2.2
    "h\n" [] [] [] rfl

theorem c7_error_identity_counterexample :
    stampMatch .EU "99/99/2023, 10:00 - A: b\n" = true ∧
    strptime .EU (("99/99/2023, 10:00 - A: b\n").data.take 17) = none ∧
    parseChat .EU ["notice\n", "oops\n", "99/99/2023, 10:00 - A: b\n"] =
      .error .continuationError ∧
    ChatError.continuationError ≠ ChatError.timestampParseError :=
  ⟨rfl, rfl, rfl, by decide⟩

/-- C10: a stamp-matching line whose text after the fixed 20-character
prefix contains no colon makes construction fail with some error, with
no chat object or aggregate produced, and when its timestamp parses the
error is precisely the failed two-way unpacking of the colon split. -/
theorem c10_no_colon_error (tf : String) (fmt : TimeFormat) (line : String)
    (hfmt : timeFormatOfString tf = some fmt)
    (h1 : stampMatch fmt line = true)
    (h2 : splitColon (line.data.drop 20) = none) :
    (∀ (fileExists : Bool) (suffix : String) (ec : String → Nat)
        (contents : List String), line ∈ contents.drop 1 →
      ∃ e, initWhatsappChat fileExists suffix tf ec contents = .error e) ∧
    (∀ (acc : List MessageRecord) (t : DateTime),
      strptime fmt (line.data.take 17) = some t →
      processLine fmt acc line = .error .noColonError) := by
  have hbad : ∀ acc, ∃ e, processLine fmt acc line = .error e := by
    intro acc
    unfold processLine
    rw [if_pos h1]
    cases hst : strptime fmt (line.data.take 17) with
    | none => exact ⟨.timestampParseError, rfl⟩
    | some t => rw [h2]; exact ⟨.noColonError, rfl⟩
  constructor
  · intro fileExists suffix ec contents hmem
    cases fileExists with
    | false => exact ⟨.notAFile, rfl⟩
    | true =>
      by_cases hsuf : suffix = ".txt"
      · subst hsuf
        obtain ⟨e, he⟩ :=
          parseLines_error_of_mem fmt (contents.drop 1) line hbad hmem []
        rw [List.drop_one] at he
        exact ⟨e, by simp [initWhatsappChat, hfmt, parseChat, he]⟩
      · exact ⟨.invalidExtension, by simp [initWhatsappChat, hsuf]⟩
  · intro acc t hst
    unfold processLine
    rw [if_pos h1, hst, h2]

theorem c10_no_colon_error_witness :
    (∃ e, initWhatsappChat true ".txt" "EU" (fun _ => 0)
      ["h\n", "01/02/2023, 10:00 - Alice Hello\n"] = .error e) ∧
    processLine .EU [] "01/02/2023, 10:00 - Alice Hello\n" =
      .error .noColonError :=
  ⟨(c10_no_colon_error "EU" .EU "01/02/2023, 10:00 - Alice Hello\n" rfl rfl rfl).1
      true ".txt" (fun _ => 0) ["h\n", "01/02/2023, 10:00 - Alice Hello\n"]
      (by simp),
   (c10_no_colon_error "EU" .EU "01/02/2023, 10:00 - Alice Hello\n" rfl rfl rfl).2
      [] ⟨2023, 2, 1, 10, 0⟩ rfl⟩

theorem groupKey_mk (f : Freq) (sp msg : String) (t : DateTime) (w : String)
    (len cnt ce : Nat) :
    groupKey f ⟨sp, msg, t, w, len, cnt, ce⟩ = (bucket f t, w, sp) := rfl

/-- The input lines of the worked example of the spec: a discarded
notice line followed by the three message lines. -/
def c1Lines : List String :=
  ["notice\n", "01/02/2023, 10:00 - Alice: Hello\n", "there\n",
   "01/02/2023, 10:05 - Bob: Hi!\n"]

/-- The records the code actually produces for c1Lines: the message
bodies keep the space that follows the colon, because line 68 splits
line[20:] on the colon and the following space stays in the message. -/
def c1Records : List MessageRecord :=
  [⟨"Alice", " Hello\nthere\n", ⟨2023, 2, 1, 10, 0⟩⟩,
   ⟨"Bob", " Hi!\n", ⟨2023, 2, 1, 10, 5⟩⟩]

/-- C1 (amended): parsing the example lines after the discarded header
yields two records, Alice with message text space-Hello-newline-there-
newline at 2023-02-01T10:00 and Bob with space-Hi!-newline at
2023-02-01T10:05, and whatever the emoji classifier returns, the daily
aggregate has exactly two rows, one per speaker, both in the bucket of
2023-02-01, each with message count 1. -/
theorem c1_example_parse_and_daily_rows :
    parseChat .EU c1Lines = .ok c1Records ∧
    ∀ ec : String → Nat,
      ((aggregateByTime .D (c1Records.map (enrich ec))).map
        (fun row => (row.time, row.speaker, row.message_count))) =
      [(bucket .D ⟨2023, 2, 1, 10, 0⟩, "Alice", 1),
       (bucket .D ⟨2023, 2, 1, 10, 5⟩, "Bob", 1)] := by
  refine ⟨rfl, fun ec => ?_⟩
  have hb1 : bucket .D ⟨2023, 2, 1, 10, 0⟩ = 738552 := rfl
  have hb2 : bucket .D ⟨2023, 2, 1, 10, 5⟩ = 738552 := rfl
  have hw1 : weekdayName (dayOfWeek ⟨2023, 2, 1, 10, 0⟩) = "Wednesday" := rfl
  have hw2 : weekdayName (dayOfWeek ⟨2023, 2, 1, 10, 5⟩) = "Wednesday" := rfl
  simp [aggregateByTime, groupKeys, aggRow, groupOf, c1Records, groupKey_mk,
    hb1, hb2, hw1, hw2, List.filter_cons, List.dedup_cons_of_not_mem, enrich]

/-- C1 is false as stated: the parser does not produce the message texts
Hello-newline-there-newline and Hi!-newline claimed by the spec example;
the actual texts keep the space after the colon. -/
theorem c1_message_text_counterexample :
    parseChat .EU c1Lines = .ok c1Records ∧
    parseChat .EU c1Lines ≠
      .ok [⟨"Alice", "Hello\nthere\n", ⟨2023, 2, 1, 10, 0⟩⟩,
           ⟨"Bob", "Hi!\n", ⟨2023, 2, 1, 10, 5⟩⟩] := by
  refine ⟨rfl, fun h => ?_⟩
  have h2 : c1Records =
      [⟨"Alice", "Hello\nthere\n", ⟨2023, 2, 1, 10, 0⟩⟩,
       ⟨"Bob", "Hi!\n", ⟨2023, 2, 1, 10, 5⟩⟩] :=
    Except.ok.inj ((rfl : parseChat .EU c1Lines = .ok c1Records).symm.trans h)
  exact absurd h2 (by decide)

theorem sum_group_lengths (f : Freq) (chat : List EnrichedRecord) :
    ((groupKeys f chat).map (fun k => (groupOf f chat k).length)).sum = chat.length := by
  have h := List.sum_map_count_dedup_eq_length (chat.map (groupKey f))
  rw [List.length_map] at h
  rw [← h]
  unfold groupKeys
  apply congrArg List.sum
  apply List.map_congr_left
  intro k _
  rw [groupOf, ← List.countP_eq_length_filter]
  delta List.count
  rw [List.countP_map]
  apply List.countP_congr
  intro e _
  show decide (groupKey f e = k) = true ↔ decide (groupKey f e = k) = true
  exact Iff.rfl

/-- C4: at every granularity each enriched record falls into exactly one
(time bucket, weekday, speaker) group, and the message counts of all
aggregate rows sum to the total number of enriched records. -/
theorem c4_partition_and_sum (f : Freq) (chat : List EnrichedRecord) :
    (∀ e ∈ chat, ∃! k, k ∈ groupKeys f chat ∧ e ∈ groupOf f chat k) ∧
    ((aggregateByTime f chat).map (fun row => row.message_count)).sum = chat.length := by
  constructor
  · intro e he
    refine ⟨groupKey f e, ⟨List.mem_dedup.mpr (List.mem_map_of_mem _ he), ?_⟩, ?_⟩
    · rw [groupOf, List.mem_filter]
      exact ⟨he, by simp⟩
    · rintro k ⟨_, hmem⟩
      rw [groupOf, List.mem_filter] at hmem
      have h2 := hmem.2
      simp only [decide_eq_true_eq] at h2
      exact h2.symm
  · unfold aggregateByTime
    rw [List.map_map]
    have hcomp : ((fun row => row.message_count) ∘ aggRow f chat) =
        fun k => (groupOf f chat k).length := rfl
    rw [hcomp]
    exact sum_group_lengths f chat

theorem c4_partition_and_sum_witness :
    (∃! k, k ∈ groupKeys .D
        [⟨"A", "m", ⟨2023, 2, 1, 10, 0⟩, "Wednesday", 1, 0, 0⟩] ∧
      (⟨"A", "m", ⟨2023, 2, 1, 10, 0⟩, "Wednesday", 1, 0, 0⟩ : EnrichedRecord) ∈
        groupOf .D [⟨"A", "m", ⟨2023, 2, 1, 10, 0⟩, "Wednesday", 1, 0, 0⟩] k) ∧
    ((aggregateByTime .D
        [⟨"A", "m", ⟨2023, 2, 1, 10, 0⟩, "Wednesday", 1, 0, 0⟩]).map
      (fun row => row.message_count)).sum =
      ([⟨"A", "m", ⟨2023, 2, 1, 10, 0⟩, "Wednesday", 1, 0, 0⟩] :
        List EnrichedRecord).length :=
  ⟨(c4_partition_and_sum .D
      [⟨"A", "m", ⟨2023, 2, 1, 10, 0⟩, "Wednesday", 1, 0, 0⟩]).1
      ⟨"A", "m", ⟨2023, 2, 1, 10, 0⟩, "Wednesday", 1, 0, 0⟩ (by simp),
   (c4_partition_and_sum .D
      [⟨"A", "m", ⟨2023, 2, 1, 10, 0⟩, "Wednesday", 1, 0, 0⟩]).2⟩

theorem sum_le_length_of_le_one (l : List Nat) (h : ∀ x ∈ l, x ≤ 1) :
    l.sum ≤ l.length := by
  induction l with
  | nil => simp
  | cons a t ih =>
    simp only [List.sum_cons, List.length_cons]
    have ha := h a (List.mem_cons_self a t)
    have ht := ih (fun x hx => h x (List.mem_cons_of_mem a hx))
    omega

theorem sum_eq_length_iff_all_one (l : List Nat) (h : ∀ x ∈ l, x ≤ 1) :
    l.sum = l.length ↔ ∀ x ∈ l, x = 1 := by
  induction l with
  | nil => simp
  | cons a t ih =>
    have ha := h a (List.mem_cons_self a t)
    have ht : ∀ x ∈ t, x ≤ 1 := fun x hx => h x (List.mem_cons_of_mem a hx)
    have hsum := sum_le_length_of_le_one t ht
    simp only [List.sum_cons, List.length_cons, List.mem_cons]
    constructor
    · intro heq
      have hteq : t.sum = t.length := by omega
      intro x hx
      rcases hx with rfl | hx
      · omega
      · exact (ih ht).mp hteq x hx
    · intro hall
      have ha1 : a = 1 := hall a (Or.inl rfl)
      have hteq := (ih ht).mpr (fun x hx => hall x (Or.inr hx))
      omega

/-- C6: for every aggregate row at every granularity the Contains
Emoji mean lies in the closed interval from 0 to 1; it is 0 exactly when
no record of the group contains an emoji and 1 exactly when every record
of the group does. -/
theorem c6_emoji_mean_bounds (ec : String → Nat) (f : Freq)
    (msgs : List MessageRecord) (row : AggregateRow)
    (hrow : row ∈ aggregateByTime f (msgs.map (enrich ec))) :
    (0 ≤ row.contains_emoji_mean ∧ row.contains_emoji_mean ≤ 1) ∧
    (row.contains_emoji_mean = 0 ↔
      ∀ e ∈ groupOf f (msgs.map (enrich ec)) (row.time, row.weekday, row.speaker),
        e.containsEmoji = 0) ∧
    (row.contains_emoji_mean = 1 ↔
      ∀ e ∈ groupOf f (msgs.map (enrich ec)) (row.time, row.weekday, row.speaker),
        e.containsEmoji = 1) := by
  unfold aggregateByTime at hrow
  obtain ⟨k, hk, hrk⟩ := List.mem_map.mp hrow
  subst hrk
  have hkey : ((aggRow f (msgs.map (enrich ec)) k).time,
               (aggRow f (msgs.map (enrich ec)) k).weekday,
               (aggRow f (msgs.map (enrich ec)) k).speaker) = k := rfl
  rw [hkey]
  have hmean : (aggRow f (msgs.map (enrich ec)) k).contains_emoji_mean =
      (((groupOf f (msgs.map (enrich ec)) k).map
          (fun e => e.containsEmoji)).sum : Rat) /
        ((groupOf f (msgs.map (enrich ec)) k).length : Rat) := rfl
  have hcast : ((groupOf f (msgs.map (enrich ec)) k).map
      (fun e => (e.containsEmoji : Rat))).sum =
      ((((groupOf f (msgs.map (enrich ec)) k).map
        (fun e => e.containsEmoji)).sum : Nat) : Rat) := by
    rw [Nat.cast_list_sum, List.map_map]
    rfl
  obtain ⟨eMem, heMem⟩ : ∃ e, e ∈ groupOf f (msgs.map (enrich ec)) k := by
    have hk2 := List.mem_dedup.mp hk
    obtain ⟨e, he, hke⟩ := List.mem_map.mp hk2
    refine ⟨e, ?_⟩
    rw [groupOf, List.mem_filter]
    exact ⟨he, by simp [hke]⟩
  have hlen : 0 < (groupOf f (msgs.map (enrich ec)) k).length :=
    List.length_pos_of_mem heMem
  have hle : ∀ x ∈ (groupOf f (msgs.map (enrich ec)) k).map
      (fun e => e.containsEmoji), x ≤ 1 := by
    intro x hx
    obtain ⟨e, heG, rfl⟩ := List.mem_map.mp hx
    rw [groupOf] at heG
    have he2 := List.mem_of_mem_filter heG
    obtain ⟨m, _, rfl⟩ := List.mem_map.mp he2
    simp only [enrich]
    split <;> omega
  have hs_le : ((groupOf f (msgs.map (enrich ec)) k).map
      (fun e => e.containsEmoji)).sum ≤
      (groupOf f (msgs.map (enrich ec)) k).length := by
    have h := sum_le_length_of_le_one _ hle
    rwa [List.length_map] at h
  have hnQ : (0 : Rat) < ((groupOf f (msgs.map (enrich ec)) k).length : Rat) :=
    Nat.cast_pos.mpr hlen
  have hn0 : ((groupOf f (msgs.map (enrich ec)) k).length : Rat) ≠ 0 :=
    ne_of_gt hnQ
  refine ⟨⟨?_, ?_⟩, ?_, ?_⟩
  · rw [hmean, hcast]
    exact div_nonneg (Nat.cast_nonneg _) (Nat.cast_nonneg _)
  · rw [hmean, hcast, div_le_one hnQ]
    exact Nat.cast_le.mpr hs_le
  · rw [hmean, hcast, div_eq_zero_iff]
    constructor
    · rintro (h0 | h0)
      · have hs0 : ((groupOf f (msgs.map (enrich ec)) k).map
            (fun e => e.containsEmoji)).sum = 0 := Nat.cast_eq_zero.mp h0
        intro e heG
        exact List.sum_eq_zero_iff.mp hs0 _ (List.mem_map_of_mem _ heG)
      · exact absurd h0 hn0
    · intro hall
      left
      have hs0 : ((groupOf f (msgs.map (enrich ec)) k).map
          (fun e => e.containsEmoji)).sum = 0 :=
        List.sum_eq_zero_iff.mpr (by
          intro x hx
          obtain ⟨e, heG, rfl⟩ := List.mem_map.mp hx
          exact hall e heG)
      exact Nat.cast_eq_zero.mpr hs0
  · rw [hmean, hcast, div_eq_one_iff_eq hn0]
    constructor
    · intro h1
      have hsn : ((groupOf f (msgs.map (enrich ec)) k).map
          (fun e => e.containsEmoji)).sum =
          (groupOf f (msgs.map (enrich ec)) k).length := Nat.cast_inj.mp h1
      have hsn2 : ((groupOf f (msgs.map (enrich ec)) k).map
          (fun e => e.containsEmoji)).sum =
          ((groupOf f (msgs.map (enrich ec)) k).map
            (fun e => e.containsEmoji)).length := by
        rw [List.length_map]; exact hsn
      have hall := (sum_eq_length_iff_all_one _ hle).mp hsn2
      intro e heG
      exact hall _ (List.mem_map_of_mem _ heG)
    · intro hall
      have hsn2 := (sum_eq_length_iff_all_one _ hle).mpr (by
        intro x hx
        obtain ⟨e, heG, rfl⟩ := List.mem_map.mp hx
        exact hall e heG)
      rw [List.length_map] at hsn2
      exact Nat.cast_inj.mpr hsn2


theorem c6_emoji_mean_bounds_witness :
    0 ≤ (aggRow .D ([⟨"A", "m", ⟨2023, 2, 1, 10, 0⟩⟩].map (enrich (fun _ => 0)))
        (738552, "Wednesday", "A")).contains_emoji_mean ∧
    (aggRow .D ([⟨"A", "m", ⟨2023, 2, 1, 10, 0⟩⟩].map (enrich (fun _ => 0)))
        (738552, "Wednesday", "A")).contains_emoji_mean ≤ 1 := by
  have hrow : aggRow .D ([⟨"A", "m", ⟨2023, 2, 1, 10, 0⟩⟩].map (enrich (fun _ => 0)))
      (738552, "Wednesday", "A") ∈
      aggregateByTime .D
        ([⟨"A", "m", ⟨2023, 2, 1, 10, 0⟩⟩].map (enrich (fun _ => 0))) := by
    unfold aggregateByTime
    have hkeys : groupKeys .D
        ([⟨"A", "m", ⟨2023, 2, 1, 10, 0⟩⟩].map (enrich (fun _ => 0))) =
        [(738552, "Wednesday", "A")] := by decide
    rw [hkeys]
    exact List.mem_singleton_self _
  exact (c6_emoji_mean_bounds (fun _ => 0) .D
    [⟨"A", "m", ⟨2023, 2, 1, 10, 0⟩⟩] _ hrow).1
